import Mathlib

/- Verification development for the badfish server-lifecycle controller
(src/badfish/badfish.py). The definitions below are a shallow embedding of
the request-layer concurrency structure, the boot-order engine, the job
poller, the power-state controller and the host orchestrator; the theorems
check the specification claims against them. Line numbers refer to
badfish.py. -/

/- Python string primitives used by the embedding. `splitChar` implements
Python str.split for a one-character separator (including the empty-part
behaviour of repeated separators), `pySplit` wraps it on String, `pyLower`
implements str.lower for the ASCII identifiers handled here, `joinUnderscore`
implements "_".join, and `strContains` implements the `sub in s` substring
test. -/

def splitChar (sep : Char) : List Char → List (List Char)
  | [] => [[]]
  | c :: rest =>
    match splitChar sep rest with
    | [] => [[c]]
    | cur :: parts => if c = sep then [] :: cur :: parts else (c :: cur) :: parts

def pySplit (s : String) (sep : Char) : List String :=
  (splitChar sep s.data).map String.mk

def pyLower (s : String) : String :=
  ⟨s.data.map Char.toLower⟩

def joinUnderscore : List String → String
  | [] => ""
  | [s] => s
  | s :: rest => s ++ "_" ++ joinUnderscore rest

def strContains (s sub : String) : Bool :=
  s.data.tails.any (fun t => sub.data.isPrefixOf t)

/-- The list `self.host.split(".")[0].split("-")` computed by
`Badfish.get_interfaces_by_type` (badfish.py:187). -/
def hostNameSplit (host : String) : List String :=
  pySplit ((pySplit host '.').headD "") '-'

/-- The test `re.compile("b0[0-9]").match(host_blade)` (badfish.py:195-196):
the blade component starts with the letter b, a zero and a digit. -/
def bladePattern (s : String) : Bool :=
  match s.data with
  | 'b' :: '0' :: c :: _ => c.isDigit
  | _ => false

/-- One candidate key, `"%s_%s_interfaces" % ("_".join(prefix), host_model)`
(badfish.py:201-202). -/
def interfacesKey (prefixParts : List String) (host_model : String) : String :=
  joinUnderscore prefixParts ++ "_" ++ host_model ++ "_interfaces"

/-- The `for _ in range(len_prefix)` lookup loop of `get_interfaces_by_type`
(badfish.py:199-207): build the key from the current prefix list, return the
comma-split device list when the mapping holds a truthy (non-empty) value,
otherwise pop the trailing prefix component and iterate; `none` models the
`BadfishException` raised after the loop (TemplateNotFound). -/
def templateLoop (defs : String → Option String) (host_model : String) :
    Nat → List String → Option (List String)
  | 0, _ => none
  | n + 1, prefixParts =>
    match defs (interfacesKey prefixParts host_model) with
    | some s =>
      if s = "" then templateLoop defs host_model n prefixParts.dropLast
      else some (pySplit s ',')
    | none => templateLoop defs host_model n prefixParts.dropLast

/-- `Badfish.get_interfaces_by_type` (badfish.py:184-212). The yaml mapping is
the abstract mapping function `defs`; the blade component is appended to the model when
it matches `bladePattern`; the prefix starts as [host_type, rack, uloc] and
the loop runs once per prefix component. A host name with fewer than four
dash-components hits a Python IndexError, modelled as `none`. -/
def get_interfaces_by_type (defs : String → Option String)
    (host host_type : String) : Option (List String) :=
  match (hostNameSplit host).reverse with
  | host_model :: host_blade :: uloc :: rack :: _ =>
    let model := if bladePattern host_blade
      then host_model ++ "_" ++ host_blade else host_model
    templateLoop defs model 3 [host_type, rack, uloc]
  | _ => none

/-- Stated from the claim for comparison, not from the code: scan candidate
keys in the given order and return the comma-split device list found under the
first key present in the mapping with a truthy value. -/
def tryKeys (defs : String → Option String) : List String → Option (List String)
  | [] => none
  | k :: ks =>
    match defs k with
    | some s => if s = "" then tryKeys defs ks else some (pySplit s ',')
    | none => tryKeys defs ks

/-- A template mapping that holds exactly the second candidate key the claim
lists for host rack1-u2-b03-640 and type foo. -/
def defsC1 : String → Option String :=
  fun k => if k = "foo_rack1_u2_640_interfaces" then some "em1,em2" else none

/-- One live boot device, `{"Name": ..., "Index": ..., "Enabled": ...}`
from the BootSources attributes (badfish.py:240-262). -/
structure BootDevice where
  name : String
  index : Int
  enabled : Bool
deriving DecidableEq

/-- Inner loop of `Badfish.change_boot_order` (badfish.py:617-622): walk the
device list and, at the first device whose name equals `interface`, set its
index to `i` (flagging a change when it differed) and break. Returns the
updated list and the change flag of this pass. -/
def setFirstMatch (interface : String) (i : Int) :
    List BootDevice → List BootDevice × Bool
  | [] => ([], false)
  | d :: ds =>
    if d.name = interface then
      if d.index ≠ i then ({ d with index := i } :: ds, true)
      else (d :: ds, false)
    else
      let r := setFirstMatch interface i ds
      (d :: r.1, r.2)

/-- Outer loop `for i, interface in enumerate(valid_devices)` of
`change_boot_order` (badfish.py:616-622), threading the device list through
every pass and or-accumulating the change flag; `i` is the running
enumeration counter. -/
def applyValid : List BootDevice → List String → Int → List BootDevice × Bool
  | devs, [], _ => (devs, false)
  | devs, v :: vs, i =>
    let r1 := setFirstMatch v i devs
    let r2 := applyValid r1.1 vs (i + 1)
    (r2.1, r1.2 || r2.2)

/-- `Badfish.change_boot_order` (badfish.py:602-629) up to the PATCH: filter
the template entries to those naming a live device, then reassign indices
0..k-1 in template order. The Bool is the `change` flag deciding whether
`patch_boot_seq` is called. -/
def change_boot_order (boot_devices : List BootDevice)
    (interfaces : List String) : List BootDevice × Bool :=
  let devices := boot_devices.map (·.name)
  let valid_devices := interfaces.filter (fun d => devices.contains d)
  applyValid boot_devices valid_devices 0

/-- Position of the first device carrying name `n`: where the inner loop of
`change_boot_order` stops for that name. -/
def firstPos (n : String) : List BootDevice → Option Nat
  | [] => none
  | d :: ds => if d.name = n then some 0 else (firstPos n ds).map (· + 1)

/-- Position of the last occurrence of `n` in a list of names. -/
def lastOcc (n : String) : List String → Option Nat
  | [] => none
  | x :: xs =>
    match lastOcc n xs with
    | some j => some (j + 1)
    | none => if x = n then some 0 else none

/-- Capacity of the `asyncio.Semaphore(50)` created in `Badfish.__init__`
(badfish.py:56) — one such semaphore per Badfish instance, that is per host
session, not one per orchestrator run. -/
def semaphoreCapacity : Nat := 50

/-- Permit accounting of one orchestrator run: the state records, per host
session, how many permits of the semaphore owned by that session are held. A
request may start (`acquire`) exactly when the session it belongs to holds
fewer than `semaphoreCapacity` permits — the only guard the
`async with self.semaphore` blocks impose (badfish.py:109, 129, 149, 170) —
and a finished request releases one permit of its session. -/
inductive SemStep : List Nat → List Nat → Prop
  | acquire (l : List Nat) (s : Nat) (h : s < l.length)
      (hcap : l.get ⟨s, h⟩ < semaphoreCapacity) :
      SemStep l (l.set s (l.get ⟨s, h⟩ + 1))
  | release (l : List Nat) (s : Nat) (h : s < l.length)
      (hpos : 0 < l.get ⟨s, h⟩) :
      SemStep l (l.set s (l.get ⟨s, h⟩ - 1))

/-- Permit states reachable in a run over `n` host sessions, all idle at
start. -/
def SemReachable (n : Nat) (l : List Nat) : Prop :=
  Relation.ReflTransGen SemStep (List.replicate n 0) l

/-- One observation `get_job_status` makes of the job endpoint: the tolerant
GET (`_continue=True`) either yields nothing or a response carrying a status
code and the parsed Message field. -/
inductive JobResponse
  | absent
  | response (status : Nat) (message : String)
deriving DecidableEq

/-- Outcome of `Badfish.get_job_status`: normal return, the exception raised
by `error_handler` on a bad status, or the exception raised when the retry
budget runs out. -/
inductive JobPollResult
  | scheduled
  | fatal
  | exhausted
deriving DecidableEq

/-- The `for _ in range(self.retries)` loop of `get_job_status`
(badfish.py:278-304): an absent response consumes the iteration and
continues; a non-200 response reaches `error_handler`, which always raises
(`fatal`); a 200 response returns (`scheduled`) exactly when its message is
"Task successfully scheduled.", and otherwise the loop continues. Falling off
the loop raises (`exhausted`). `k` is the cursor into the observation
stream. -/
def jobPollLoop (responses : Nat → JobResponse) : Nat → Nat → JobPollResult
  | 0, _ => .exhausted
  | n + 1, k =>
    match responses k with
    | .absent => jobPollLoop responses n (k + 1)
    | .response status msg =>
      if status = 200 then
        if msg = "Task successfully scheduled." then .scheduled
        else jobPollLoop responses n (k + 1)
      else .fatal

/-- `Badfish.get_job_status` (badfish.py:274-306) over the stream of
observations it makes. -/
def get_job_status (retries : Nat) (responses : Nat → JobResponse) :
    JobPollResult :=
  jobPollLoop responses retries 0

/-- Observations that make the poll loop consume one budget unit and
continue. -/
def JobResponse.continues : JobResponse → Prop
  | .absent => True
  | .response s m => s = 200 ∧ m ≠ "Task successfully scheduled."

/-- The sole success terminator: a 200 response with the exact message. -/
def JobResponse.isSuccess : JobResponse → Prop
  | .absent => False
  | .response s m => s = 200 ∧ m = "Task successfully scheduled."

/-- A response whose status is not 200: immediately fatal in the loop. -/
def JobResponse.isFatal : JobResponse → Prop
  | .absent => False
  | .response s _ => s ≠ 200

/-- The selection of `reset_type` at the top of `Badfish.reboot_server`
(badfish.py:837-842): `GracefulRestart` when advertised; otherwise the for
loop overwrites `reset_type` with every advertised type containing "restart"
case-insensitively, so the last match scanned wins, and the default name
survives when nothing matches. -/
def select_reset_type (reset_types : List String) : String :=
  if reset_types.contains "GracefulRestart" then "GracefulRestart"
  else reset_types.foldl
    (fun acc rt => if strContains (pyLower rt) "restart" then rt else acc)
    "GracefulRestart"

/-- The per-iteration test of `Badfish.polling_host_state`
(badfish.py:1059-1075) on the stream of power states `get_power_state`
observes: the lowercased k-th observation compares equal (`eqs = true`) or
unequal (`eqs = false`) to the lowercased target. -/
def pollDesired (states : Nat → String) (target : String) (eqs : Bool)
    (k : Nat) : Bool :=
  if eqs then pyLower (states k) == pyLower target
  else pyLower (states k) != pyLower target

/-- The loop of `polling_host_state`: consume observations from cursor `k`,
up to `retries` of them, stopping at the first desired one; returns the
`desired_state` flag and the next cursor. -/
def pollLoop (states : Nat → String) (target : String) (eqs : Bool) :
    Nat → Nat → Bool × Nat
  | 0, k => (false, k)
  | n + 1, k =>
    if pollDesired states target eqs k then (true, k + 1)
    else pollLoop states target eqs n (k + 1)

/-- `Badfish.reboot_server` (badfish.py:836-867), recording the sequence of
`send_reset` actions it issues. `states k` is the k-th value returned by
`get_power_state` during the call (the initial read is `states 0`, polls
consume the stream in order, and the reset POSTs are modelled as accepted). -/
def reboot_server (states : Nat → String) (retries : Nat)
    (reset_types : List String) (graceful : Bool) : List String :=
  let reset_type := select_reset_type reset_types
  if pyLower (states 0) = "on" then
    if graceful then
      let p1 := pollLoop states "Off" true retries 1
      let acts1 := if p1.1 then [reset_type] else [reset_type, "ForceOff"]
      let p2 := pollLoop states "Down" false retries p1.2
      if p2.1 then acts1 ++ ["On"] else acts1
    else
      let p2 := pollLoop states "Down" false retries 1
      if p2.1 then ["ForceOff", "On"] else ["ForceOff"]
  else if pyLower (states 0) = "off" then ["On"]
  else []

/-- Observation stream of the C6 counterexample: the host is On, reports Off
at the first poll of the graceful shutdown, and afterwards the controller
stops answering, so every later `get_power_state` yields Down. -/
def statesC6 : Nat → String :=
  fun k => if k = 0 then "On" else if k = 1 then "Off" else "Down"

/-- Observation stream of the C6 witness: the host is On and reports Off from
the first poll onwards. -/
def statesW6 : Nat → String :=
  fun k => if k = 0 then "On" else "Off"

/-- The only exception `execute_badfish` catches (badfish.py:1698): a
BadfishException raised inside the host session, tagged with its reason. -/
inductive SessionError
  | badfish (reason : String)
deriving DecidableEq

/-- `execute_badfish` (badfish.py:1611-1706): the per-host session body either
completes (`Except.ok`) or raises BadfishException; the function always
returns the pair of the host and a success flag, and the flag is `false`
exactly when the exception was caught. -/
def execute_badfish (host : String) (session : Except SessionError Bool) :
    String × Bool :=
  match session with
  | .ok _ => (host, true)
  | .error _ => (host, false)

/-- The multi-host path of `main` (badfish.py:1846-1864): one task per host in
file order, gathered into a result list that asyncio.gather returns in task
submission order. -/
def orchestrate (hosts : List String)
    (run : String → Except SessionError Bool) : List (String × Bool) :=
  hosts.map (fun h => execute_badfish h (run h))

/-- Session outcomes of the C8 witness run: host B raises a communication
failure, every other host succeeds. -/
def runC8 : String → Except SessionError Bool :=
  fun h => if h = "B" then .error (.badfish "CommunicationFailure") else .ok true

/-- Session outcomes of the comparison run in which every host succeeds. -/
def runC8ok : String → Except SessionError Bool :=
  fun _ => .ok true

/-- How a failure escapes a badfish coroutine: the BadfishException the tool
raises and catches, or a plain Python error (such as the AttributeError from
touching `.status` on a None response, or a json ValueError) that nothing in
badfish.py catches. -/
inductive PyFailure
  | badfish
  | pythonError
deriving DecidableEq

/-- What `set_power_state` observes from its tolerant GET of the system
resource: nothing, or a response with a status code and — when the body
parses as JSON (`some`) — the optional truthy PowerState field. -/
inductive PowerFetch
  | absent
  | response (status : Nat) (body : Option (Option String))
deriving DecidableEq

/-- `Badfish.set_power_state` (badfish.py:534-565): validate the target, read
the current power state, issue ForceOff or On via the reset action, and
return the PowerState value that was read before the reset (paired here with
the list of reset actions sent). An absent response with target off is the
early `return` (value None); an empty-string PowerState is falsy in Python
and raises like a missing one. -/
def set_power_state (state : String) (fetch : PowerFetch) :
    Except PyFailure (Option String × List String) :=
  if pyLower state = "on" ∨ pyLower state = "off" then
    match fetch with
    | .absent =>
      if pyLower state = "off" then .ok (none, [])
      else .error .pythonError
    | .response status body =>
      if status = 200 then
        match body with
        | none => .error .pythonError
        | some none => .error .badfish
        | some (some s) =>
          if s = "" then .error .badfish
          else .ok (some s,
            [if pyLower state = "off" then "ForceOff" else "On"])
      else .error .badfish
  else .error .badfish

/-- What `get_bios_boot_mode` extracts from the response body: unparseable
JSON, or a parsed body in which Attributes.BootMode is present or missing. -/
inductive BiosResponse
  | unparseable
  | parsed (bootMode : Option String)
deriving DecidableEq

/-- `Badfish.get_bios_boot_mode` (badfish.py:221-238): a ValueError while
parsing the body raises BadfishException; a missing Attributes.BootMode key
is caught (KeyError) and degrades to the string "Bios". -/
def get_bios_boot_mode (r : BiosResponse) : Except PyFailure String :=
  match r with
  | .unparseable => .error .badfish
  | .parsed (some m) => .ok m
  | .parsed none => .ok "Bios"

/-- `Badfish.get_boot_seq` (badfish.py:214-219): the UEFI sequence key exactly
when the boot mode is "Uefi", else the legacy key. -/
def get_boot_seq (r : BiosResponse) : Except PyFailure String :=
  match get_bios_boot_mode r with
  | .ok m => .ok (if m = "Uefi" then "UefiBootSeq" else "BootSeq")
  | .error e => .error e

/- Theorems. Helper lemmas come first; each claim then gets exactly one
theorem (with witness and counterexample theorems where required). -/

theorem execute_badfish_eq (host : String) (session : Except SessionError Bool) :
    execute_badfish host session = (host, session.isOk) := by
  cases session <;> rfl

theorem nodup_getElem?_inj {α : Type} (l : List α) (hl : l.Nodup) (a b : Nat)
    (x : α) (ha : l[a]? = some x) (hb : l[b]? = some x) : a = b := by
  by_contra hne
  rcases Nat.lt_or_ge a b with hlt | hge
  · have hb' : b < l.length := (List.getElem?_eq_some.mp hb).1
    exact (List.nodup_iff_getElem?_ne_getElem?.mp hl a b hlt hb') (ha.trans hb.symm)
  · have hlt2 : b < a := by omega
    have ha' : a < l.length := (List.getElem?_eq_some.mp ha).1
    exact (List.nodup_iff_getElem?_ne_getElem?.mp hl b a hlt2 ha') (hb.trans ha.symm)

/-- C10: a 200 response whose body parses as JSON but lacks the
Attributes.BootMode field makes `get_bios_boot_mode` return the string "Bios"
instead of raising, and `get_boot_seq` then yields the legacy key
"BootSeq". -/
theorem c10_missing_boot_mode_defaults_to_bios :
    get_bios_boot_mode (.parsed none) = .ok "Bios" ∧
    get_boot_seq (.parsed none) = .ok "BootSeq" :=
  ⟨rfl, rfl⟩

/-- C9: when the system-resource fetch returns 200 with a truthy PowerState
field, `set_power_state` with target on or off returns exactly that value —
the power state read before the reset command is issued — alongside the one
reset action it sends. -/
theorem c9_set_power_state_returns_prior_state (state ps : String)
    (hstate : pyLower state = "on" ∨ pyLower state = "off") (hps : ps ≠ "") :
    set_power_state state (.response 200 (some (some ps))) =
      .ok (some ps, [if pyLower state = "off" then "ForceOff" else "On"]) := by
  unfold set_power_state
  rw [if_pos hstate]
  simp [hps]

/-- Witness for C9 at target "on" with prior state "Off". -/
theorem c9_witness :
    (pyLower "on" = "on" ∨ pyLower "on" = "off") ∧ ("Off" : String) ≠ "" ∧
    set_power_state "on" (.response 200 (some (some "Off"))) =
      .ok (some "Off", ["On"]) := by
  refine ⟨Or.inl (by decide), by decide, ?_⟩
  rw [c9_set_power_state_returns_prior_state "on" "Off" (Or.inl (by decide))
    (by decide)]
  rfl

/-- C8: the orchestrator yields exactly one (host, success) pair per host, in
input order and with the same length as the host list; the entry of a host is
a function of that host alone, so another host failing (its run differing)
cannot change it or shorten the sequence. -/
theorem c8_orchestrator_isolation (hosts : List String)
    (run run2 : String → Except SessionError Bool) (b : String) :
    (orchestrate hosts run).length = hosts.length ∧
    (∀ k : Nat, (orchestrate hosts run)[k]? =
      (hosts[k]?).map (fun h => (h, (run h).isOk))) ∧
    ((∀ h, h ≠ b → run h = run2 h) →
      ∀ (k : Nat) (h : String), hosts[k]? = some h → h ≠ b →
        (orchestrate hosts run)[k]? = (orchestrate hosts run2)[k]?) := by
  refine ⟨by simp [orchestrate], ?_, ?_⟩
  · intro k
    rw [orchestrate, List.getElem?_map]
    cases hosts[k]? with
    | none => rfl
    | some h => simp [execute_badfish_eq]
  · intro hagree k h hk hne
    rw [orchestrate, orchestrate, List.getElem?_map, List.getElem?_map, hk]
    simp [hagree h hne]

/-- Witness for C8: hosts [A, B, C] with B raising a communication failure
give three results in order; the A and C entries agree with the run in which
B succeeds. -/
theorem c8_witness :
    (orchestrate ["A", "B", "C"] runC8).length = 3 ∧
    (orchestrate ["A", "B", "C"] runC8)[1]? = some ("B", false) ∧
    (orchestrate ["A", "B", "C"] runC8)[0]? =
      (orchestrate ["A", "B", "C"] runC8ok)[0]? ∧
    (orchestrate ["A", "B", "C"] runC8)[2]? =
      (orchestrate ["A", "B", "C"] runC8ok)[2]? := by
  have h := c8_orchestrator_isolation ["A", "B", "C"] runC8 runC8ok "B"
  have hagree : ∀ x, x ≠ "B" → runC8 x = runC8ok x := by
    intro x hx
    simp [runC8, runC8ok, hx]
  refine ⟨h.1.trans rfl, ?_, ?_, ?_⟩
  · rw [h.2.1 1]
    rfl
  · exact h.2.2 hagree 0 "A" rfl (by decide)
  · exact h.2.2 hagree 2 "C" rfl (by decide)

theorem jobPollLoop_exhausted (responses : Nat → JobResponse) :
    ∀ n k, (∀ j, j < n → (responses (k + j)).continues) →
      jobPollLoop responses n k = .exhausted := by
  intro n
  induction n with
  | zero => intro k _; rfl
  | succ n ih =>
    intro k hc
    have h0 := hc 0 (Nat.succ_pos n)
    rw [Nat.add_zero] at h0
    have hrec := ih (k + 1) (fun j hj => by
      have h := hc (j + 1) (Nat.succ_lt_succ hj)
      rwa [show k + (j + 1) = (k + 1) + j by omega] at h)
    cases hr : responses k with
    | absent => simp [jobPollLoop, hr, hrec]
    | response status msg =>
      rw [hr] at h0
      obtain ⟨hs, hm⟩ := h0
      simp [jobPollLoop, hr, hs, hm, hrec]

theorem jobPollLoop_scheduled (responses : Nat → JobResponse) :
    ∀ n k m, m < n → (responses (k + m)).isSuccess →
      (∀ j, j < m → (responses (k + j)).continues) →
      jobPollLoop responses n k = .scheduled := by
  intro n
  induction n with
  | zero => intro k m hm; omega
  | succ n ih =>
    intro k m hm hs hc
    cases m with
    | zero =>
      rw [Nat.add_zero] at hs
      cases hr : responses k with
      | absent => rw [hr] at hs; cases hs
      | response status msg =>
        rw [hr] at hs
        obtain ⟨h200, hmsg⟩ := hs
        simp [jobPollLoop, hr, h200, hmsg]
    | succ m =>
      have h0 := hc 0 (Nat.succ_pos m)
      rw [Nat.add_zero] at h0
      have hrec := ih (k + 1) m (by omega)
        (by rwa [show (k + 1) + m = k + (m + 1) by omega])
        (fun j hj => by
          have h := hc (j + 1) (Nat.succ_lt_succ hj)
          rwa [show k + (j + 1) = (k + 1) + j by omega] at h)
      cases hr : responses k with
      | absent => simp [jobPollLoop, hr, hrec]
      | response status msg =>
        rw [hr] at h0
        obtain ⟨hs2, hm2⟩ := h0
        simp [jobPollLoop, hr, hs2, hm2, hrec]

theorem jobPollLoop_fatal (responses : Nat → JobResponse) :
    ∀ n k m, m < n → (responses (k + m)).isFatal →
      (∀ j, j < m → (responses (k + j)).continues) →
      jobPollLoop responses n k = .fatal := by
  intro n
  induction n with
  | zero => intro k m hm; omega
  | succ n ih =>
    intro k m hm hs hc
    cases m with
    | zero =>
      rw [Nat.add_zero] at hs
      cases hr : responses k with
      | absent => rw [hr] at hs; cases hs
      | response status msg =>
        rw [hr] at hs
        have hs' : status ≠ 200 := hs
        simp [jobPollLoop, hr, hs']
    | succ m =>
      have h0 := hc 0 (Nat.succ_pos m)
      rw [Nat.add_zero] at h0
      have hrec := ih (k + 1) m (by omega)
        (by rwa [show (k + 1) + m = k + (m + 1) by omega])
        (fun j hj => by
          have h := hc (j + 1) (Nat.succ_lt_succ hj)
          rwa [show k + (j + 1) = (k + 1) + j by omega] at h)
      cases hr : responses k with
      | absent => simp [jobPollLoop, hr, hrec]
      | response status msg =>
        rw [hr] at h0
        obtain ⟨hs2, hm2⟩ := h0
        simp [jobPollLoop, hr, hs2, hm2, hrec]

/-- C5: over the stream of responses `get_job_status` observes, the first 200
response carrying exactly the message "Task successfully scheduled." (all
earlier observations being budget-consuming continuations: absent responses
or 200 responses with another message) ends the poll with success; the first
non-200 response reached the same way is immediately fatal; and a full budget
of continuations ends in the retry-exhausted failure. -/
theorem c5_job_poll_contract (retries : Nat) (responses : Nat → JobResponse) :
    (∀ m, m < retries → (responses m).isSuccess →
      (∀ j, j < m → (responses j).continues) →
      get_job_status retries responses = .scheduled) ∧
    (∀ m, m < retries → (responses m).isFatal →
      (∀ j, j < m → (responses j).continues) →
      get_job_status retries responses = .fatal) ∧
    ((∀ j, j < retries → (responses j).continues) →
      get_job_status retries responses = .exhausted) := by
  refine ⟨?_, ?_, ?_⟩
  · intro m hm hs hc
    exact jobPollLoop_scheduled responses retries 0 m hm (by simpa using hs)
      (fun j hj => by simpa using hc j hj)
  · intro m hm hs hc
    exact jobPollLoop_fatal responses retries 0 m hm (by simpa using hs)
      (fun j hj => by simpa using hc j hj)
  · intro hc
    exact jobPollLoop_exhausted responses retries 0
      (fun j hj => by simpa using hc j hj)

/-- Witness for C5: with a budget of two, an absent observation followed by
the success message schedules; followed by a 503 it is fatal; two 200
responses with another message exhaust the budget. -/
theorem c5_witness :
    get_job_status 2 (fun k => if k = 0 then .absent
      else .response 200 "Task successfully scheduled.") = .scheduled ∧
    get_job_status 2 (fun k => if k = 0 then .absent
      else .response 503 "err") = .fatal ∧
    get_job_status 2 (fun _ => .response 200 "Running") = .exhausted := by
  refine ⟨?_, ?_, ?_⟩
  · exact (c5_job_poll_contract 2 (fun k => if k = 0 then .absent
      else .response 200 "Task successfully scheduled.")).1 1 (by omega)
      ⟨rfl, rfl⟩
      (fun j hj => by
        have hj0 : j = 0 := by omega
        subst hj0
        trivial)
  · exact (c5_job_poll_contract 2 (fun k => if k = 0 then .absent
      else .response 503 "err")).2.1 1 (by omega)
      (by intro hcon; exact absurd hcon (by decide))
      (fun j hj => by
        have hj0 : j = 0 := by omega
        subst hj0
        trivial)
  · exact (c5_job_poll_contract 2 (fun _ => .response 200 "Running")).2.2
      (fun j _ => ⟨rfl, by decide⟩)

theorem semStep_bound (a b : List Nat) (hstep : SemStep a b)
    (ha : ∀ x ∈ a, x ≤ semaphoreCapacity) : ∀ x ∈ b, x ≤ semaphoreCapacity := by
  cases hstep with
  | acquire s hs hcap =>
    intro x hx
    rcases List.mem_or_eq_of_mem_set hx with hmem | rfl
    · exact ha x hmem
    · omega
  | release s hs hpos =>
    intro x hx
    rcases List.mem_or_eq_of_mem_set hx with hmem | rfl
    · exact ha x hmem
    · have hb := ha (a.get ⟨s, hs⟩) (List.get_mem a s hs)
      omega

/-- C3 (amended): the 50-permit semaphore is created per Badfish instance, so
the bound it enforces is per host session — in every reachable permit state,
each single session holds at most 50 permits. No bound below (number of
sessions) * 50 holds for the whole run. -/
theorem c3_per_session_permit_bound (n : Nat) (l : List Nat)
    (h : SemReachable n l) : ∀ x ∈ l, x ≤ semaphoreCapacity := by
  induction h with
  | refl =>
    intro x hx
    rw [List.eq_of_mem_replicate hx]
    exact Nat.zero_le _
  | tail _ hbc ih =>
    exact semStep_bound _ _ hbc ih

/-- Witness for C3: the initial one-session state is reachable and is within
the per-session bound. -/
theorem c3_witness :
    SemReachable 1 [0] ∧ ∀ x ∈ ([0] : List Nat), x ≤ semaphoreCapacity := by
  have hreach : SemReachable 1 [0] := Relation.ReflTransGen.refl
  exact ⟨hreach, c3_per_session_permit_bound 1 [0] hreach⟩

theorem semReachable_two_fill : ∀ a : Nat, a ≤ 50 → SemReachable 2 [a, 0] := by
  intro a
  induction a with
  | zero => intro _; exact Relation.ReflTransGen.refl
  | succ a ih =>
    intro ha
    have step : SemStep [a, 0] [a + 1, 0] :=
      SemStep.acquire [a, 0] 0 (by simp) (by simp [semaphoreCapacity]; omega)
    exact Relation.ReflTransGen.tail (ih (by omega)) step

/-- Counterexample for C3: with two host sessions, a state holding 51 permits
in total (50 in the first session, 1 in the second) is reachable, so the
run-wide number of in-flight requests is not bounded by the claimed shared
pool of 50. -/
theorem c3_counterexample :
    SemReachable 2 [50, 1] ∧ semaphoreCapacity < ([50, 1] : List Nat).sum := by
  refine ⟨?_, by decide⟩
  have h50 := semReachable_two_fill 50 (Nat.le_refl 50)
  have step : SemStep [50, 0] [50, 1] :=
    SemStep.acquire [50, 0] 1 (by simp) (by simp [semaphoreCapacity])
  exact Relation.ReflTransGen.tail h50 step

theorem foldl_keep_last (p : String → Bool) :
    ∀ (l : List String) (a : String),
      l.foldl (fun acc rt => if p rt then rt else acc) a =
        ((l.filter p).getLast?).getD a := by
  intro l
  induction l with
  | nil => intro a; rfl
  | cons x xs ih =>
    intro a
    rw [List.foldl_cons, List.filter_cons]
    by_cases hx : p x
    · rw [if_pos hx, if_pos hx, ih x]
      cases hfp : xs.filter p with
      | nil => simp [hfp]
      | cons y ys =>
        rw [List.getLast?_cons_cons]
        cases hz : (y :: ys).getLast? with
        | none => simp at hz
        | some z => simp [hz]
    · rw [if_neg hx, if_neg hx, ih a]

theorem foldl_restart_invariant (l : List String) :
    ∀ a : String,
      (a = "GracefulRestart" ∨ strContains (pyLower a) "restart" = true) →
      (l.foldl (fun acc rt => if strContains (pyLower rt) "restart" then rt
          else acc) a = "GracefulRestart" ∨
        strContains (pyLower (l.foldl (fun acc rt =>
          if strContains (pyLower rt) "restart" then rt else acc) a))
          "restart" = true) := by
  induction l with
  | nil => intro a ha; simpa using ha
  | cons x xs ih =>
    intro a ha
    rw [List.foldl_cons]
    apply ih
    by_cases hx : strContains (pyLower x) "restart" = true
    · rw [if_pos hx]
      exact Or.inr hx
    · rw [if_neg hx]
      exact ha

theorem select_reset_type_shape (rts : List String) :
    select_reset_type rts = "GracefulRestart" ∨
    strContains (pyLower (select_reset_type rts)) "restart" = true := by
  unfold select_reset_type
  split
  · exact Or.inl rfl
  · exact foldl_restart_invariant rts "GracefulRestart" (Or.inl rfl)

theorem select_reset_type_ne_forceoff (rts : List String) :
    select_reset_type rts ≠ "ForceOff" := by
  rcases select_reset_type_shape rts with h | h
  · rw [h]; decide
  · intro hcon
    rw [hcon] at h
    exact absurd h (by decide)

theorem select_reset_type_ne_on (rts : List String) :
    select_reset_type rts ≠ "On" := by
  rcases select_reset_type_shape rts with h | h
  · rw [h]; decide
  · intro hcon
    rw [hcon] at h
    exact absurd h (by decide)

/-- C7 (amended): when GracefulRestart is not advertised, the loop keeps the
LAST advertised reset type containing "restart" case-insensitively (each
match scanned overwrites the previous), not the first one. -/
theorem c7_reset_type_last_match (rts : List String) (rt : String)
    (habs : rts.contains "GracefulRestart" = false)
    (hlast : (rts.filter
      (fun x => strContains (pyLower x) "restart")).getLast? = some rt) :
    select_reset_type rts = rt := by
  unfold select_reset_type
  rw [if_neg (by rw [habs]; decide)]
  rw [foldl_keep_last (fun x => strContains (pyLower x) "restart") rts
    "GracefulRestart", hlast]
  rfl

/-- Witness for C7 with the two-match list [WarmRestart, ColdRestart]. -/
theorem c7_witness :
    (["WarmRestart", "ColdRestart"] : List String).contains
        "GracefulRestart" = false ∧
    (["WarmRestart", "ColdRestart"].filter
      (fun x => strContains (pyLower x) "restart")).getLast?
        = some "ColdRestart" ∧
    select_reset_type ["WarmRestart", "ColdRestart"] = "ColdRestart" := by
  refine ⟨by decide, by decide, ?_⟩
  exact c7_reset_type_last_match ["WarmRestart", "ColdRestart"] "ColdRestart"
    (by decide) (by decide)

/-- Counterexample for C7: advertised list [WarmRestart, ColdRestart] has no
GracefulRestart and two case-insensitive "restart" matches; the claim says
the first match WarmRestart is selected, but the code selects the last match
ColdRestart. -/
theorem c7_counterexample :
    select_reset_type ["WarmRestart", "ColdRestart"] = "ColdRestart" ∧
    ("ColdRestart" : String) ≠ "WarmRestart" := by
  exact ⟨by decide, by decide⟩

theorem pollLoop_fst_iff (states : Nat → String) (target : String)
    (eqs : Bool) :
    ∀ n k, (pollLoop states target eqs n k).1 = true ↔
      ∃ j, j < n ∧ pollDesired states target eqs (k + j) = true := by
  intro n
  induction n with
  | zero =>
    intro k
    simp [pollLoop]
  | succ n ih =>
    intro k
    rcases Bool.eq_false_or_eq_true (pollDesired states target eqs k)
      with hd | hd
    · have hstep : pollLoop states target eqs (n + 1) k = (true, k + 1) := by
        simp [pollLoop, hd]
      rw [hstep]
      constructor
      · intro _
        exact ⟨0, Nat.succ_pos n, by simpa using hd⟩
      · intro _
        rfl
    · have hstep : pollLoop states target eqs (n + 1) k
          = pollLoop states target eqs n (k + 1) := by
        simp [pollLoop, hd]
      rw [hstep, ih (k + 1)]
      constructor
      · rintro ⟨j, hj, hP⟩
        exact ⟨j + 1, by omega, by
          rwa [show k + (j + 1) = (k + 1) + j by omega]⟩
      · rintro ⟨j, hj, hP⟩
        cases j with
        | zero =>
          rw [Nat.add_zero] at hP
          simp [hP] at hd
        | succ j =>
          exact ⟨j, by omega, by
            rwa [show (k + 1) + j = k + (j + 1) by omega]⟩

theorem reboot_server_graceful_on (states : Nat → String) (retries : Nat)
    (rts : List String) (h0 : pyLower (states 0) = "on") :
    reboot_server states retries rts true =
      (if (pollLoop states "Down" false retries
            (pollLoop states "Off" true retries 1).2).1
       then (if (pollLoop states "Off" true retries 1).1
             then [select_reset_type rts]
             else [select_reset_type rts, "ForceOff"]) ++ ["On"]
       else (if (pollLoop states "Off" true retries 1).1
             then [select_reset_type rts]
             else [select_reset_type rts, "ForceOff"])) := by
  unfold reboot_server
  rw [if_pos h0]
  rfl

/-- C6 (amended): a graceful reboot starting from power state On. When the
controller reports Off within the first polling budget (window starting at
observation 1), no ForceOff is ever sent, and the final action sent is On if
and only if the second poll (for leaving Down, its window starting at the
cursor where the first poll stopped) observes a non-Down state within its
budget — with a controller that stops answering, the cycle can end after the
graceful reset with no On sent. When Off is never observed within the first
budget, a ForceOff is sent before the cycle completes. -/
theorem c6_reboot_graceful (states : Nat → String) (retries : Nat)
    (rts : List String) (h0 : pyLower (states 0) = "on") :
    ((∃ j, j < retries ∧ pyLower (states (1 + j)) = "off") →
      "ForceOff" ∉ reboot_server states retries rts true ∧
      ((reboot_server states retries rts true).getLast? = some "On" ↔
        ∃ j, j < retries ∧
          pyLower (states ((pollLoop states "Off" true retries 1).2 + j))
            ≠ "down")) ∧
    ((∀ j, j < retries → pyLower (states (1 + j)) ≠ "off") →
      "ForceOff" ∈ reboot_server states retries rts true) := by
  have hfirst : ∀ j, pollDesired states "Off" true j = true ↔
      pyLower (states j) = "off" := by
    intro j
    have hlow : pyLower "Off" = "off" := by decide
    simp [pollDesired, hlow]
  have hsecond : ∀ j, pollDesired states "Down" false j = true ↔
      pyLower (states j) ≠ "down" := by
    intro j
    have hlow : pyLower "Down" = "down" := by decide
    simp [pollDesired, hlow]
  have hneF := select_reset_type_ne_forceoff rts
  have hneOn := select_reset_type_ne_on rts
  constructor
  · intro hoff
    have h1 : (pollLoop states "Off" true retries 1).1 = true := by
      rw [pollLoop_fst_iff]
      obtain ⟨j, hj, hP⟩ := hoff
      exact ⟨j, hj, (hfirst (1 + j)).mpr hP⟩
    rcases Bool.eq_false_or_eq_true (pollLoop states "Down" false retries
      (pollLoop states "Off" true retries 1).2).1 with h2 | h2
    · have hacts : reboot_server states retries rts true
          = [select_reset_type rts, "On"] := by
        rw [reboot_server_graceful_on states retries rts h0, h1, h2]
        simp
      rw [hacts]
      constructor
      · intro hmem
        rcases List.mem_cons.mp hmem with hc | hc
        · exact hneF hc.symm
        · rcases List.mem_cons.mp hc with hc2 | hc2
          · exact absurd hc2 (by decide)
          · simp at hc2
      · apply iff_of_true
        · rw [List.getLast?_cons_cons]
          rfl
        · have h2e := (pollLoop_fst_iff states "Down" false retries
            (pollLoop states "Off" true retries 1).2).mp h2
          obtain ⟨j, hj, hP⟩ := h2e
          exact ⟨j, hj, (hsecond _).mp hP⟩
    · have hacts : reboot_server states retries rts true
          = [select_reset_type rts] := by
        rw [reboot_server_graceful_on states retries rts h0, h1, h2]
        simp
      rw [hacts]
      constructor
      · intro hmem
        rcases List.mem_cons.mp hmem with hc | hc
        · exact hneF hc.symm
        · simp at hc
      · apply iff_of_false
        · intro hcon
          have : select_reset_type rts = "On" := by
            simpa using hcon
          exact hneOn this
        · rintro ⟨j, hj, hP⟩
          have ht : (pollLoop states "Down" false retries
              (pollLoop states "Off" true retries 1).2).1 = true := by
            rw [pollLoop_fst_iff]
            exact ⟨j, hj, (hsecond _).mpr hP⟩
          rw [h2] at ht
          cases ht
  · intro hnoff
    have h1 : (pollLoop states "Off" true retries 1).1 = false := by
      rcases Bool.eq_false_or_eq_true
        (pollLoop states "Off" true retries 1).1 with h | h
      · exfalso
        rw [pollLoop_fst_iff] at h
        obtain ⟨j, hj, hP⟩ := h
        exact hnoff j hj ((hfirst (1 + j)).mp hP)
      · exact h
    rw [reboot_server_graceful_on states retries rts h0, h1]
    rcases Bool.eq_false_or_eq_true (pollLoop states "Down" false retries
      (pollLoop states "Off" true retries 1).2).1 with h2 | h2 <;>
      simp [h2]

/-- Witness for C6: host On, Off observed at the first poll, controller still
answering Off afterwards — no ForceOff is sent and the final action is On. -/
theorem c6_witness :
    pyLower (statesW6 0) = "on" ∧
    (∃ j, j < 1 ∧ pyLower (statesW6 (1 + j)) = "off") ∧
    "ForceOff" ∉ reboot_server statesW6 1 ["GracefulRestart"] true ∧
    (reboot_server statesW6 1 ["GracefulRestart"] true).getLast?
      = some "On" := by
  have hex : ∃ j, j < 1 ∧ pyLower (statesW6 (1 + j)) = "off" :=
    ⟨0, by omega, by decide⟩
  have h := (c6_reboot_graceful statesW6 1 ["GracefulRestart"]
    (by decide)).1 hex
  refine ⟨by decide, hex, h.1, ?_⟩
  rw [h.2]
  exact ⟨0, by omega, by decide⟩

/-- Counterexample for C6: the claim says that whenever Off is observed
within the polling budget the final reset action sent is On; with the
controller going silent after the graceful shutdown (every later power read
gives Down), the code sends no On — the final action is the graceful reset
itself. -/
theorem c6_counterexample :
    pyLower (statesC6 0) = "on" ∧
    (∃ j, j < 2 ∧ pyLower (statesC6 (1 + j)) = "off") ∧
    (reboot_server statesC6 2 ["GracefulRestart"] true).getLast?
      ≠ some "On" := by
  refine ⟨by decide, ⟨0, by omega, by decide⟩, by decide⟩

theorem interfacesKey_three (t : String) :
    interfacesKey [t, "rack1", "u2"] "640_b03"
      = t ++ "_rack1_u2_640_b03_interfaces" := by
  simp only [interfacesKey, joinUnderscore, String.append_assoc]
  congr 1

theorem interfacesKey_two (t : String) :
    interfacesKey [t, "rack1"] "640_b03"
      = t ++ "_rack1_640_b03_interfaces" := by
  simp only [interfacesKey, joinUnderscore, String.append_assoc]
  congr 1

theorem interfacesKey_one (t : String) :
    interfacesKey [t] "640_b03" = t ++ "_640_b03_interfaces" := by
  simp only [interfacesKey, joinUnderscore, String.append_assoc]
  congr 1

theorem templateLoop_level (defs : String → Option String) (m key : String)
    (l : List String) (n : Nat) (ks : List String)
    (hkey : interfacesKey l m = key)
    (hrest : templateLoop defs m n l.dropLast = tryKeys defs ks) :
    templateLoop defs m (n + 1) l = tryKeys defs (key :: ks) := by
  subst hkey
  show (match defs (interfacesKey l m) with
    | some s => if s = "" then templateLoop defs m n l.dropLast
                else some (pySplit s ',')
    | none => templateLoop defs m n l.dropLast)
    = (match defs (interfacesKey l m) with
    | some s => if s = "" then tryKeys defs ks else some (pySplit s ',')
    | none => tryKeys defs ks)
  cases defs (interfacesKey l m) with
  | none => exact hrest
  | some s =>
    show (if s = "" then templateLoop defs m n l.dropLast
          else some (pySplit s ',')) =
      (if s = "" then tryKeys defs ks else some (pySplit s ','))
    by_cases hs : s = ""
    · rw [if_pos hs, if_pos hs, hrest]
    · rw [if_neg hs, if_neg hs]

/-- C1 (amended): for host rack1-u2-b03-640 (blade b03 matches the pattern,
so the model is suffixed once, up front) the lookup tries exactly THREE
candidate keys, keeping the blade suffix at every level:
{type}_rack1_u2_640_b03, {type}_rack1_640_b03, {type}_640_b03 (each suffixed
_interfaces). It returns the comma-split device list of the first key present
in the mapping and fails (TemplateNotFound) when none matches; the four-key
sequence the claim states, with the blade suffix dropped below full
specificity, is not the one tried. -/
theorem c1_template_fallback_order (defs : String → Option String)
    (t : String) :
    get_interfaces_by_type defs "rack1-u2-b03-640" t =
      tryKeys defs [t ++ "_rack1_u2_640_b03_interfaces",
        t ++ "_rack1_640_b03_interfaces", t ++ "_640_b03_interfaces"] := by
  have hmain : get_interfaces_by_type defs "rack1-u2-b03-640" t
      = templateLoop defs "640_b03" 3 [t, "rack1", "u2"] := rfl
  rw [hmain]
  apply templateLoop_level defs "640_b03" _ [t, "rack1", "u2"] 2 _
    (interfacesKey_three t)
  apply templateLoop_level defs "640_b03" _ [t, "rack1"] 1 _
    (interfacesKey_two t)
  apply templateLoop_level defs "640_b03" _ [t] 0 _
    (interfacesKey_one t)
  rfl

/-- Counterexample for C1: a mapping holding exactly the key
foo_rack1_u2_640_interfaces — the second candidate the claim lists for host
rack1-u2-b03-640 and type foo. The claimed lookup order finds it and returns
the device list; the code never tries that key (its second candidate is
foo_rack1_640_b03_interfaces) and raises TemplateNotFound instead. -/
theorem c1_counterexample :
    get_interfaces_by_type defsC1 "rack1-u2-b03-640" "foo" = none ∧
    tryKeys defsC1 ["foo_rack1_u2_640_b03_interfaces",
      "foo_rack1_u2_640_interfaces", "foo_rack1_640_interfaces",
      "foo_640_interfaces"] = some ["em1", "em2"] := by
  exact ⟨by decide, by decide⟩

theorem setFirstMatch_names (v : String) (i : Int) :
    ∀ devs : List BootDevice,
      (setFirstMatch v i devs).1.map (·.name) = devs.map (·.name) := by
  intro devs
  induction devs with
  | nil => rfl
  | cons d ds ih =>
    simp only [setFirstMatch]
    by_cases h : d.name = v
    · rw [if_pos h]
      by_cases h2 : d.index ≠ i
      · rw [if_pos h2]
        simp
      · rw [if_neg h2]
    · rw [if_neg h]
      simp [ih]

theorem applyValid_names :
    ∀ (vs : List String) (devs : List BootDevice) (i : Int),
      (applyValid devs vs i).1.map (·.name) = devs.map (·.name) := by
  intro vs
  induction vs with
  | nil => intro devs i; rfl
  | cons v vs ih =>
    intro devs i
    simp only [applyValid]
    rw [ih, setFirstMatch_names]

theorem applyValid_length (vs : List String) (devs : List BootDevice)
    (i : Int) : (applyValid devs vs i).1.length = devs.length := by
  have h := applyValid_names vs devs i
  have h1 := congrArg List.length h
  simpa using h1

theorem firstPos_congr (n : String) :
    ∀ devs devs2 : List BootDevice,
      devs.map (·.name) = devs2.map (·.name) →
      firstPos n devs = firstPos n devs2 := by
  intro devs
  induction devs with
  | nil =>
    intro devs2 h
    cases devs2 with
    | nil => rfl
    | cons e es => simp at h
  | cons d ds ih =>
    intro devs2 h
    cases devs2 with
    | nil => simp at h
    | cons e es =>
      simp only [List.map_cons, List.cons.injEq] at h
      obtain ⟨h1, h2⟩ := h
      simp only [firstPos, h1, ih es h2]

theorem firstPos_name :
    ∀ (devs : List BootDevice) (n : String) (p : Nat),
      firstPos n devs = some p → (devs[p]?).map (·.name) = some n := by
  intro devs
  induction devs with
  | nil =>
    intro n p h
    simp [firstPos] at h
  | cons d ds ih =>
    intro n p h
    simp only [firstPos] at h
    by_cases hd : d.name = n
    · rw [if_pos hd] at h
      injection h with h'
      subst h'
      simp [hd]
    · rw [if_neg hd] at h
      cases hfp : firstPos n ds with
      | none => rw [hfp] at h; simp at h
      | some q =>
        rw [hfp] at h
        simp only [Option.map_some'] at h
        injection h with h'
        subst h'
        simpa using ih n q hfp

theorem firstPos_of_nodup :
    ∀ (devs : List BootDevice) (p : Nat) (d : BootDevice),
      (devs.map (·.name)).Nodup → devs[p]? = some d →
      firstPos d.name devs = some p := by
  intro devs
  induction devs with
  | nil =>
    intro p d _ h
    simp at h
  | cons e es ih =>
    intro p d hnd hp
    simp only [List.map_cons, List.nodup_cons] at hnd
    obtain ⟨hnotin, hnd'⟩ := hnd
    cases p with
    | zero =>
      simp only [List.getElem?_cons_zero] at hp
      injection hp with hp'
      subst hp'
      simp [firstPos]
    | succ p =>
      simp only [List.getElem?_cons_succ] at hp
      have hmem : d ∈ es := by
        rw [List.getElem?_eq_some] at hp
        obtain ⟨hlt, rfl⟩ := hp
        exact List.getElem_mem hlt
      have hne : e.name ≠ d.name := by
        intro hcon
        exact hnotin (hcon ▸ List.mem_map_of_mem (·.name) hmem)
      simp only [firstPos, if_neg hne, ih p d hnd' hp]
      rfl

theorem lastOcc_eq_none (n : String) :
    ∀ l : List String, lastOcc n l = none → n ∉ l := by
  intro l
  induction l with
  | nil => intro _; simp
  | cons x xs ih =>
    intro h
    simp only [lastOcc] at h
    cases hx : lastOcc n xs with
    | some j => rw [hx] at h; cases h
    | none =>
      rw [hx] at h
      by_cases hxe : x = n
      · rw [if_pos hxe] at h; cases h
      · intro hmem
        rcases List.mem_cons.mp hmem with hc | hc
        · exact hxe hc.symm
        · exact ih hx hc

theorem lastOcc_getElem (n : String) :
    ∀ (l : List String) (j : Nat), lastOcc n l = some j → l[j]? = some n := by
  intro l
  induction l with
  | nil =>
    intro j h
    simp [lastOcc] at h
  | cons x xs ih =>
    intro j h
    simp only [lastOcc] at h
    cases hx : lastOcc n xs with
    | some q =>
      rw [hx] at h
      injection h with h'
      subst h'
      simpa using ih q hx
    | none =>
      rw [hx] at h
      by_cases hxe : x = n
      · rw [if_pos hxe] at h
        injection h with h'
        subst h'
        simp [hxe]
      · rw [if_neg hxe] at h
        cases h

theorem setFirstMatch_getElem? (v : String) (i : Int) :
    ∀ (devs : List BootDevice) (p : Nat),
      ((setFirstMatch v i devs).1)[p]? =
        if firstPos v devs = some p
        then (devs[p]?).map (fun d => { d with index := i })
        else devs[p]? := by
  intro devs
  induction devs with
  | nil =>
    intro p
    simp [setFirstMatch, firstPos]
  | cons d ds ih =>
    intro p
    obtain ⟨nm, ix, en⟩ := d
    by_cases hd : nm = v
    · subst hd
      by_cases hi : ix ≠ i
      · cases p with
        | zero => simp [setFirstMatch, firstPos, hi]
        | succ p => simp [setFirstMatch, firstPos, hi]
      · push_neg at hi
        subst hi
        cases p with
        | zero => simp [setFirstMatch, firstPos]
        | succ p => simp [setFirstMatch, firstPos]
    · cases p with
      | zero =>
        cases hfp : firstPos v ds with
        | none => simp [setFirstMatch, firstPos, hd, hfp]
        | some q => simp [setFirstMatch, firstPos, hd, hfp]
      | succ p =>
        cases hfp : firstPos v ds with
        | none =>
          have hih := ih p
          rw [hfp] at hih
          simp [setFirstMatch, firstPos, hd, hfp, hih]
        | some q =>
          have hih := ih p
          rw [hfp] at hih
          by_cases hq : q = p
          · subst hq
            simp [setFirstMatch, firstPos, hd, hfp, hih]
          · simp [setFirstMatch, firstPos, hd, hfp, hih, hq]

theorem setFirstMatch_id (v : String) (i : Int) :
    ∀ devs : List BootDevice,
      (∀ p, firstPos v devs = some p →
        (devs[p]?).map (·.index) = some i) →
      setFirstMatch v i devs = (devs, false) := by
  intro devs
  induction devs with
  | nil => intro _; rfl
  | cons d ds ih =>
    intro h
    simp only [setFirstMatch]
    by_cases hd : d.name = v
    · rw [if_pos hd]
      have h0 := h 0 (by simp [firstPos, hd])
      simp only [List.getElem?_cons_zero, Option.map_some'] at h0
      injection h0 with h0'
      rw [if_neg (by simp [h0'])]
    · rw [if_neg hd]
      have h' : ∀ p, firstPos v ds = some p →
          (ds[p]?).map (·.index) = some i := by
        intro p hp
        have hh := h (p + 1) (by simp [firstPos, hd, hp])
        simpa using hh
      rw [ih h']

theorem applyValid_getElem? :
    ∀ (vs : List String) (devs : List BootDevice) (i : Int) (p : Nat),
      ((applyValid devs vs i).1)[p]? =
        (devs[p]?).map (fun d =>
          if firstPos d.name devs = some p then
            match lastOcc d.name vs with
            | some j => { d with index := i + (j : Int) }
            | none => d
          else d) := by
  intro vs
  induction vs with
  | nil =>
    intro devs i p
    simp only [applyValid, lastOcc]
    cases devs[p]? with
    | none => rfl
    | some d => simp
  | cons v vs ih =>
    intro devs i p
    simp only [applyValid]
    rw [ih, setFirstMatch_getElem?]
    have hnames := setFirstMatch_names v i devs
    have hfp : ∀ n, firstPos n (setFirstMatch v i devs).1 = firstPos n devs :=
      fun n => firstPos_congr n _ _ hnames
    by_cases hc : firstPos v devs = some p
    · rw [if_pos hc]
      cases hdp : devs[p]? with
      | none => simp
      | some d =>
        obtain ⟨nm, ix, en⟩ := d
        have hdn : nm = v := by
          have hh := firstPos_name devs v p hc
          rw [hdp] at hh
          simpa using hh
        subst hdn
        simp only [Option.map_some']
        rw [hfp]
        simp only [if_pos hc]
        cases hlo : lastOcc nm vs with
        | some j =>
          simp only [lastOcc, hlo]
          simp [BootDevice.mk.injEq]
          omega
        | none =>
          simp only [lastOcc, hlo, if_pos rfl]
          simp [BootDevice.mk.injEq]
    · rw [if_neg hc]
      cases hdp : devs[p]? with
      | none => simp
      | some d =>
        obtain ⟨nm, ix, en⟩ := d
        simp only [Option.map_some']
        rw [hfp]
        by_cases hdn : nm = v
        · subst hdn
          simp only [if_neg hc]
        · by_cases hposn : firstPos nm devs = some p
          · simp only [if_pos hposn]
            cases hlo : lastOcc nm vs with
            | some j =>
              simp only [lastOcc, hlo, if_neg (Ne.symm hdn)]
              simp [BootDevice.mk.injEq]
              omega
            | none =>
              simp only [lastOcc, hlo, if_neg (Ne.symm hdn)]
          · simp only [if_neg hposn]

theorem applyValid_id :
    ∀ (vs : List String) (devs : List BootDevice) (i : Int),
      (∀ (j : Nat) (v : String) (p : Nat), vs[j]? = some v →
        firstPos v devs = some p →
        (devs[p]?).map (·.index) = some (i + (j : Int))) →
      applyValid devs vs i = (devs, false) := by
  intro vs
  induction vs with
  | nil => intro devs i _; rfl
  | cons v vs ih =>
    intro devs i h
    have h0 : ∀ p, firstPos v devs = some p →
        (devs[p]?).map (·.index) = some i := by
      intro p hp
      have hh := h 0 v p (by simp) hp
      simpa using hh
    have h' : ∀ (j : Nat) (v2 : String) (p : Nat), vs[j]? = some v2 →
        firstPos v2 devs = some p →
        (devs[p]?).map (·.index) = some ((i + 1) + (j : Int)) := by
      intro j v2 p hj hp
      have hh := h (j + 1) v2 p (by simpa using hj) hp
      rw [hh]
      congr 1
      push_cast
      ring
    have hsfm := setFirstMatch_id v i devs h0
    have hrec := ih devs (i + 1) h'
    simp [applyValid, hsfm, hrec]

/-- C4 (amended): when the template lists no device name twice, reconciling
an already reconciled list against the same template detects no index change
(the `change` flag of the second run is false), so no PATCH is issued. With a
duplicated template entry the second run does report a change (see the
counterexample), because each pass through the duplicate moves the index
back. -/
theorem c4_reconcile_idempotent (devs : List BootDevice)
    (interfaces : List String) (h : interfaces.Nodup) :
    (change_boot_order (change_boot_order devs interfaces).1 interfaces).2
      = false := by
  have hcb : ∀ (ds : List BootDevice),
      change_boot_order ds interfaces
        = applyValid ds (interfaces.filter
            (fun d => (ds.map (·.name)).contains d)) 0 := fun _ => rfl
  rw [hcb, hcb]
  rw [applyValid_names]
  set valid := interfaces.filter
    (fun d => (devs.map (·.name)).contains d) with hval
  set L1 := (applyValid devs valid 0).1 with hL1
  have hn : L1.map (·.name) = devs.map (·.name) := applyValid_names valid devs 0
  have hvnd : valid.Nodup := h.filter _
  suffices hsuf : applyValid L1 valid 0 = (L1, false) by rw [hsuf]
  apply applyValid_id
  intro j v p hj hp
  rw [firstPos_congr v L1 devs hn] at hp
  have hdp := firstPos_name devs v p hp
  cases hdevp : devs[p]? with
  | none =>
    rw [hdevp] at hdp
    cases hdp
  | some d =>
    rw [hdevp] at hdp
    simp only [Option.map_some'] at hdp
    injection hdp with hdn
    have hvmem : v ∈ valid := by
      have h2 := hj
      rw [List.getElem?_eq_some] at h2
      obtain ⟨h1, heq⟩ := h2
      exact heq ▸ List.getElem_mem h1
    cases hlo : lastOcc v valid with
    | none => exact absurd hvmem (lastOcc_eq_none v valid hlo)
    | some j0 =>
      have hj0 : valid[j0]? = some v := lastOcc_getElem v valid j0 hlo
      have hjj : j0 = j := nodup_getElem?_inj valid hvnd j0 j v hj0 hj
      subst hjj
      have hL := applyValid_getElem? valid devs 0 p
      rw [hdevp] at hL
      simp only [Option.map_some'] at hL
      rw [hdn] at hL
      rw [if_pos hp, hlo] at hL
      rw [← hL1] at hL
      rw [hL]
      simp

/-- Witness for C4 with a duplicate-free template. -/
theorem c4_witness :
    (["em1"] : List String).Nodup ∧
    (change_boot_order
      (change_boot_order [⟨"em1", 1, true⟩] ["em1"]).1 ["em1"]).2 = false := by
  refine ⟨by decide, ?_⟩
  exact c4_reconcile_idempotent [⟨"em1", 1, true⟩] ["em1"] (by decide)

/-- Counterexample for C4: with the template [A, A] naming the single live
device twice, the first run leaves the device at index 1 (the second pass
overwrote the first), so the second run again finds index 1 where its first
pass wants 0 and reports a change — the claim that a second reconciliation
never detects a change fails. -/
theorem c4_counterexample :
    (change_boot_order
      (change_boot_order [⟨"A", 0, true⟩] ["A", "A"]).1 ["A", "A"]).2
      = true := by
  decide

/-- C2 (amended): the reconciliation keeps boot-device indices pairwise
unique for every live list whose device names are pairwise distinct and all
named by the template: every device then receives the position of the last
occurrence of its name among the valid template entries, and those positions
are distinct. Without template coverage the invariant can break — a
non-template device may keep an index that a template device is assigned
(see the counterexample). -/
theorem c2_reconcile_preserves_unique_indices (devs : List BootDevice)
    (interfaces : List String)
    (hidx : (devs.map (·.index)).Nodup)
    (hname : (devs.map (·.name)).Nodup)
    (hcov : ∀ d ∈ devs, d.name ∈ interfaces) :
    ((change_boot_order devs interfaces).1.map (·.index)).Nodup := by
  have hcb : change_boot_order devs interfaces
      = applyValid devs (interfaces.filter
          (fun d => (devs.map (·.name)).contains d)) 0 := rfl
  rw [hcb]
  set valid := interfaces.filter
    (fun d => (devs.map (·.name)).contains d) with hval
  set L1 := (applyValid devs valid 0).1 with hL1
  have hcov2 : ∀ d ∈ devs, d.name ∈ valid := by
    intro d hd
    rw [hval]
    refine List.mem_filter.mpr ⟨hcov d hd, ?_⟩
    have hmem : d.name ∈ devs.map (·.name) := List.mem_map_of_mem _ hd
    simpa using hmem
  have hlen : L1.length = devs.length := applyValid_length valid devs 0
  rw [List.nodup_iff_getElem?_ne_getElem?]
  intro a b hab hb
  rw [List.length_map, hlen] at hb
  have hbd : b < devs.length := hb
  have had : a < devs.length := lt_trans hab hbd
  obtain ⟨da, hda⟩ : ∃ x, devs[a]? = some x :=
    ⟨_, List.getElem?_eq_getElem had⟩
  obtain ⟨db, hdb⟩ : ∃ x, devs[b]? = some x :=
    ⟨_, List.getElem?_eq_getElem hbd⟩
  have hfa : firstPos da.name devs = some a :=
    firstPos_of_nodup devs a da hname hda
  have hfb : firstPos db.name devs = some b :=
    firstPos_of_nodup devs b db hname hdb
  have hma : da ∈ devs := by
    have h2 := hda
    rw [List.getElem?_eq_some] at h2
    obtain ⟨h1, heq⟩ := h2
    exact heq ▸ List.getElem_mem h1
  have hmb : db ∈ devs := by
    have h2 := hdb
    rw [List.getElem?_eq_some] at h2
    obtain ⟨h1, heq⟩ := h2
    exact heq ▸ List.getElem_mem h1
  cases hloa : lastOcc da.name valid with
  | none => exact absurd (hcov2 da hma) (lastOcc_eq_none _ _ hloa)
  | some ja =>
  cases hlob : lastOcc db.name valid with
  | none => exact absurd (hcov2 db hmb) (lastOcc_eq_none _ _ hlob)
  | some jb =>
  have hLa : (L1.map (·.index))[a]? = some (0 + (ja : Int)) := by
    rw [List.getElem?_map, hL1, applyValid_getElem?, hda]
    simp only [Option.map_some']
    rw [if_pos hfa, hloa]
  have hLb : (L1.map (·.index))[b]? = some (0 + (jb : Int)) := by
    rw [List.getElem?_map, hL1, applyValid_getElem?, hdb]
    simp only [Option.map_some']
    rw [if_pos hfb, hlob]
  rw [hLa, hLb]
  intro hcon
  injection hcon with hcon2
  have hjj : ja = jb := by omega
  subst hjj
  have h1 := lastOcc_getElem _ valid ja hloa
  have h2 := lastOcc_getElem _ valid ja hlob
  rw [h1] at h2
  injection h2 with hnm
  have hmapa : (devs.map (·.name))[a]? = some da.name := by
    rw [List.getElem?_map, hda]
    rfl
  have hmapb : (devs.map (·.name))[b]? = some db.name := by
    rw [List.getElem?_map, hdb]
    rfl
  have hneq := List.nodup_iff_getElem?_ne_getElem?.mp hname a b hab
    (by rw [List.length_map]; exact hbd)
  apply hneq
  rw [hmapa, hmapb, hnm]

/-- Witness for C2: two uniquely named, template-covered devices keep unique
indices after reconciliation. -/
theorem c2_witness :
    (([⟨"em1", 5, true⟩, ⟨"em2", 0, true⟩] :
        List BootDevice).map (·.index)).Nodup ∧
    (([⟨"em1", 5, true⟩, ⟨"em2", 0, true⟩] :
        List BootDevice).map (·.name)).Nodup ∧
    (∀ d ∈ ([⟨"em1", 5, true⟩, ⟨"em2", 0, true⟩] : List BootDevice),
      d.name ∈ ["em1", "em2"]) ∧
    ((change_boot_order [⟨"em1", 5, true⟩, ⟨"em2", 0, true⟩]
        ["em1", "em2"]).1.map (·.index)).Nodup := by
  refine ⟨by decide, by decide, by decide, ?_⟩
  exact c2_reconcile_preserves_unique_indices
    [⟨"em1", 5, true⟩, ⟨"em2", 0, true⟩] ["em1", "em2"]
    (by decide) (by decide) (by decide)

/-- Counterexample for C2: live list [A at 5, B at 0] has pairwise unique
indices; the template [A] assigns A index 0 and leaves B untouched at 0, so
the reconciled list carries the duplicate index 0 twice — reconciliation
alone does not preserve the uniqueness invariant the claim states. -/
theorem c2_counterexample :
    (([⟨"A", 5, true⟩, ⟨"B", 0, true⟩] :
        List BootDevice).map (·.index)).Nodup ∧
    ¬ ((change_boot_order [⟨"A", 5, true⟩, ⟨"B", 0, true⟩]
        ["A"]).1.map (·.index)).Nodup := by
  exact ⟨by decide, by decide⟩
